import Mathlib

/-!
Shallow embedding of `src/unit1_CP/src_potential_fix/MLEstimator.py`:
a maximum-likelihood unigram estimator with ad-hoc epsilon smoothing.

Probabilities are modelled in `ℚ` (exact arithmetic), fallible operations
return `Except String`.  The `Vocabulary` collaborator is not part of the
repository sources, so it is modelled from the spec's consumed contract.
-/

namespace UnigramML

/-- Modelled from the spec: the external `Vocabulary` collaborator (its
source is not in the repository).  An ordered set of `V` distinct words;
each word maps to a unique integer id in `[0, V)`; `get_word_id` fails for
absent words with a message naming the word. -/
structure Vocabulary where
  words : List String
  nodup : words.Nodup
deriving DecidableEq

/-- Index of the first occurrence of `w`, if any (the id assignment of the
spec's Vocabulary contract). -/
def lookupId : List String → String → Option Nat
  | [], _ => none
  | x :: xs, w => if x = w then some 0 else (lookupId xs w).map (· + 1)

/-- Modelled from the spec: `Vocabulary.size`, the fixed number of distinct
words. -/
def Vocabulary.size (v : Vocabulary) : Nat := v.words.length

/-- Modelled from the spec: `Vocabulary.get_word_id`; `none` stands for the
KeyError `"Word {word} not in the vocabulary"`. -/
def Vocabulary.get_word_id (v : Vocabulary) (w : String) : Option Nat :=
  lookupId v.words w

/-- State of `MLEstimator.py`'s `MLEstimator` class: `count_V = none`
models Python's `None` before any `fit` call; the source's numpy float
array of integral counts is modelled as a list of naturals. -/
structure MLEstimator where
  vocab : Vocabulary
  epsilon_unseen_proba : ℚ
  total_count : Nat
  unseen_count : Nat
  count_V : Option (List Nat)
deriving DecidableEq

/-- `MLEstimator.__init__` (lines 60-67): stores `vocab` and
`epsilon_unseen_proba` unchanged, no validation, and initializes
`total_count = 0`, `unseen_count = 0`, `count_V = None`. -/
def MLEstimator.init (vocab : Vocabulary) (epsilon_unseen_proba : ℚ) : MLEstimator :=
  { vocab := vocab
    epsilon_unseen_proba := epsilon_unseen_proba
    total_count := 0
    unseen_count := 0
    count_V := none }

/-- The `for word in word_list` loop of `fit` (lines 94-96): resolve each
word's id and increment the corresponding count; a failed lookup raises
KeyError (the loop in the source then stops, leaving partial state on the
object, which no claim observes). -/
def incrCounts (voc : Vocabulary) : List Nat → List String → Except String (List Nat)
  | cV, [] => .ok cV
  | cV, w :: ws =>
    match voc.get_word_id w with
    | none => .error ("Word " ++ w ++ " not in the vocabulary")
    | some i => incrCounts voc (cV.set i (cV.getD i 0 + 1)) ws

/-- `MLEstimator.fit` (lines 69-100): fresh zero counts of length
`vocab.size`, `total_count = len(word_list)`, one increment per word, then
`unseen_count` = number of zero entries of `count_V`. -/
def MLEstimator.fit (est : MLEstimator) (word_list : List String) :
    Except String MLEstimator :=
  match incrCounts est.vocab (List.replicate est.vocab.size 0) word_list with
  | .error e => .error e
  | .ok cV =>
    .ok { est with
          count_V := some cV
          total_count := word_list.length
          unseen_count := cV.countP (fun c => c == 0) }

/-- `MLEstimator.predict_proba` (lines 102-131).  The vocabulary lookup on
line 121 runs before `count_V` is subscripted, so an absent word errors
regardless of fit state; subscripting `None` (fit never called) is Python's
TypeError.  `ml = count_V[index] / total_count` uses `ℚ` division, where
`0 / 0 = 0`; numpy evaluates `0.0 / 0` to NaN with a warning (no exception)
and `NaN > 0` is false, so both semantics take the same branch there (a
state with a positive count and `total_count = 0` is unreachable after any
`fit`, since counts sum to `total_count`). -/
def MLEstimator.predict_proba (est : MLEstimator) (word : String) :
    Except String ℚ :=
  match est.vocab.get_word_id word with
  | none => .error ("Word " ++ word ++ " not in the vocabulary")
  | some index =>
    match est.count_V with
    | none => .error "TypeError: count_V is None"
    | some cV =>
      let ml : ℚ := (cV.getD index 0 : ℚ) / (est.total_count : ℚ)
      if 0 < ml then
        .ok ((1 - est.epsilon_unseen_proba) * ml)
      else if 0 < est.unseen_count then
        .ok (est.epsilon_unseen_proba * (1 / (est.unseen_count : ℚ)))
      else
        .ok 0

/-- The accumulation loop of `score` (lines 145-147):
`total_log_proba += np.log(self.predict_proba(word))`, with errors from
`predict_proba` propagating. -/
noncomputable def logSum (est : MLEstimator) : ℝ → List String → Except String ℝ
  | acc, [] => .ok acc
  | acc, w :: ws =>
    match est.predict_proba w with
    | .error e => .error e
    | .ok p => logSum est (acc + Real.log ((p : ℚ) : ℝ)) ws

/-- `MLEstimator.score` (lines 133-148): average natural-log probability
per token (`ℝ` division, where division by a zero length yields 0; Python
raises ZeroDivisionError there, and no claim scores an empty list). -/
noncomputable def MLEstimator.score (est : MLEstimator) (word_list : List String) :
    Except String ℝ :=
  match logSum est 0 word_list with
  | .error e => .error e
  | .ok t => .ok (t / (word_list.length : ℝ))

/-! ### Basic lookup lemmas -/

theorem lookupId_lt {ws : List String} {w : String} {i : Nat}
    (h : lookupId ws w = some i) : i < ws.length := by
  induction ws generalizing i with
  | nil => simp [lookupId] at h
  | cons x xs ih =>
    by_cases hx : x = w
    · simp [lookupId, hx] at h
      simp [← h]
    · simp [lookupId, hx] at h
      obtain ⟨j, hj, rfl⟩ := h
      have := ih hj
      simp only [List.length_cons]
      omega

theorem lookupId_get {ws : List String} {w : String} {i : Nat}
    (h : lookupId ws w = some i) :
    ∃ hlt : i < ws.length, ws.get ⟨i, hlt⟩ = w := by
  induction ws generalizing i with
  | nil => simp [lookupId] at h
  | cons x xs ih =>
    by_cases hx : x = w
    · simp [lookupId, hx] at h
      subst h
      exact ⟨by simp, hx⟩
    · simp [lookupId, hx] at h
      obtain ⟨j, hj, rfl⟩ := h
      obtain ⟨hlt, hget⟩ := ih hj
      exact ⟨by simpa using Nat.succ_lt_succ hlt, hget⟩

theorem lookupId_eq_none_iff {ws : List String} {w : String} :
    lookupId ws w = none ↔ w ∉ ws := by
  induction ws with
  | nil => simp [lookupId]
  | cons x xs ih =>
    by_cases hx : x = w
    · simp [lookupId, hx]
    · simp [lookupId, hx, ih, Option.map_eq_none]
      intro h
      exact fun hw => hx hw.symm

theorem lookupId_of_get {ws : List String} (hnd : ws.Nodup) {i : Nat}
    (hlt : i < ws.length) : lookupId ws (ws.get ⟨i, hlt⟩) = some i := by
  induction ws generalizing i with
  | nil => simp at hlt
  | cons x xs ih =>
    rcases List.nodup_cons.mp hnd with ⟨hx, hxs⟩
    cases i with
    | zero => simp [lookupId]
    | succ j =>
      have hjlt : j < xs.length := by simpa using hlt
      have hih := ih hxs hjlt
      have hne : x ≠ xs[j] := fun hc => hx (hc ▸ List.getElem_mem hjlt)
      simp only [List.get_eq_getElem] at hih ⊢
      simp [lookupId, List.getElem_cons_succ, hne, hih]

/-! ### List helpers for set/getD/sum/countP -/

theorem getD_set_self {l : List Nat} {i : Nat} (hlt : i < l.length) (x : Nat) :
    (l.set i x).getD i 0 = x := by
  induction l generalizing i with
  | nil => simp at hlt
  | cons a t ih =>
    cases i with
    | zero => simp [List.set]
    | succ j => simpa [List.set] using ih (by simpa using hlt)

theorem getD_set_ne {l : List Nat} {i j : Nat} (hne : i ≠ j) (x : Nat) :
    (l.set i x).getD j 0 = l.getD j 0 := by
  induction l generalizing i j with
  | nil => simp [List.set]
  | cons a t ih =>
    cases i with
    | zero =>
      cases j with
      | zero => exact absurd rfl hne
      | succ k => simp [List.set]
    | succ i' =>
      cases j with
      | zero => simp [List.set]
      | succ k =>
        have hik : i' ≠ k := by omega
        simpa [List.set] using ih hik

theorem sum_set_getD_succ {l : List Nat} {i : Nat} (hlt : i < l.length) :
    (l.set i (l.getD i 0 + 1)).sum = l.sum + 1 := by
  induction l generalizing i with
  | nil => simp at hlt
  | cons a t ih =>
    cases i with
    | zero => simp [List.set]; omega
    | succ j =>
      have ht := ih (by simpa using hlt : j < t.length)
      simp only [List.getD_cons_succ, List.set_cons_succ, List.sum_cons, ht]
      omega

/-! ### incrCounts lemmas -/

theorem incrCounts_length {voc : Vocabulary} {cV cV' : List Nat} {L : List String}
    (h : incrCounts voc cV L = .ok cV') : cV'.length = cV.length := by
  induction L generalizing cV with
  | nil =>
    simp [incrCounts] at h
    simp [h]
  | cons w ws ih =>
    simp only [incrCounts] at h
    cases hlook : voc.get_word_id w with
    | none => simp [hlook] at h
    | some i =>
      rw [hlook] at h
      simpa [List.length_set] using ih h

theorem incrCounts_ok_of_mem {voc : Vocabulary} {L : List String}
    (hmem : ∀ w ∈ L, w ∈ voc.words) (cV : List Nat) :
    ∃ cV', incrCounts voc cV L = .ok cV' := by
  induction L generalizing cV with
  | nil => exact ⟨cV, rfl⟩
  | cons w ws ih =>
    have hw : w ∈ voc.words := hmem w (by simp)
    cases hlook : voc.get_word_id w with
    | none =>
      exact absurd (lookupId_eq_none_iff.mp hlook) (by simpa using hw)
    | some i =>
      obtain ⟨cV', hcV'⟩ := ih (fun x hx => hmem x (by simp [hx]))
        (cV.set i (cV.getD i 0 + 1))
      refine ⟨cV', ?_⟩
      simp only [incrCounts, hlook]
      exact hcV'

theorem incrCounts_sum {voc : Vocabulary} {L : List String} {cV cV' : List Nat}
    (h : incrCounts voc cV L = .ok cV') (hlen : cV.length = voc.size) :
    cV'.sum = cV.sum + L.length := by
  induction L generalizing cV with
  | nil =>
    simp [incrCounts] at h
    simp [h]
  | cons w ws ih =>
    simp only [incrCounts] at h
    cases hlook : voc.get_word_id w with
    | none => simp [hlook] at h
    | some i =>
      rw [hlook] at h
      have hi : i < cV.length := hlen ▸ lookupId_lt hlook
      have := ih h (by simpa [List.length_set] using hlen)
      rw [this, sum_set_getD_succ hi]
      simp only [List.length_cons]
      omega

theorem incrCounts_getD {voc : Vocabulary} {L : List String} {cV cV' : List Nat}
    (h : incrCounts voc cV L = .ok cV') (hlen : cV.length = voc.size) (j : Nat) :
    cV'.getD j 0 =
      cV.getD j 0 + L.countP (fun w => voc.get_word_id w == some j) := by
  induction L generalizing cV with
  | nil =>
    simp [incrCounts] at h
    simp [h]
  | cons w ws ih =>
    simp only [incrCounts] at h
    cases hlook : voc.get_word_id w with
    | none => simp [hlook] at h
    | some i =>
      rw [hlook] at h
      have hi : i < cV.length := hlen ▸ lookupId_lt hlook
      rw [ih h (by simpa [List.length_set] using hlen)]
      by_cases hij : i = j
      · subst hij
        rw [getD_set_self hi]
        simp [List.countP_cons, hlook]
        omega
      · rw [getD_set_ne hij]
        have hfalse : (voc.get_word_id w == some j) = false := by
          simp [hlook, hij]
        simp [List.countP_cons, hfalse]

theorem getD_replicate_zero (n j : Nat) : (List.replicate n (0 : Nat)).getD j 0 = 0 := by
  induction n generalizing j with
  | zero => simp
  | succ m ih =>
    cases j with
    | zero => simp [List.replicate]
    | succ k =>
      rw [List.replicate, List.getD_cons_succ]
      exact ih k

theorem getD_le_sum (l : List Nat) (j : Nat) : l.getD j 0 ≤ l.sum := by
  induction l generalizing j with
  | nil => simp
  | cons a t ih =>
    cases j with
    | zero => simp
    | succ k =>
      have := ih k
      simp only [List.getD_cons_succ, List.sum_cons]
      omega

theorem countP_zero_pos {cV : List Nat} {i : Nat} (hlt : i < cV.length)
    (hz : cV.getD i 0 = 0) : 0 < cV.countP (fun c => c == 0) := by
  rw [List.countP_pos_iff]
  rw [List.getD_eq_getElem cV 0 hlt] at hz
  exact ⟨cV.get ⟨i, hlt⟩, List.get_mem cV i hlt, by simp [List.get_eq_getElem, hz]⟩

/-! ### Reindexing sums and zero counts over vocabulary ids -/

theorem sum_map_range_getD (l : List Nat) (g : Nat → ℚ) :
    ((List.range l.length).map (fun i => g (l.getD i 0))).sum = (l.map g).sum := by
  induction l with
  | nil => simp
  | cons a t ih =>
    rw [List.length_cons, List.range_succ_eq_map]
    simp only [List.map_cons, List.map_map, List.sum_cons, List.getD_cons_zero,
      Function.comp_def, List.getD_cons_succ]
    rw [ih]

theorem countP_range_getD (l : List Nat) (p : Nat → Bool) :
    (List.range l.length).countP (fun i => p (l.getD i 0)) = l.countP p := by
  induction l with
  | nil => simp
  | cons a t ih =>
    rw [List.length_cons, List.range_succ_eq_map, List.countP_cons, List.countP_map]
    simp only [Function.comp_def, List.getD_cons_succ, List.getD_cons_zero, List.countP_cons]
    rw [ih]

/-! ### The fitted state -/

/-- Unpacking a successful `fit`: the new state's fields, the invariants of
`count_V` (length, total, per-id counts), and `unseen_count`. -/
theorem fit_state {est est' : MLEstimator} {L : List String}
    (h : est.fit L = .ok est') :
    est'.vocab = est.vocab ∧
    est'.epsilon_unseen_proba = est.epsilon_unseen_proba ∧
    est'.total_count = L.length ∧
    ∃ cV, est'.count_V = some cV ∧
      cV.length = est.vocab.size ∧
      cV.sum = L.length ∧
      (∀ j, cV.getD j 0 = L.countP (fun w => est.vocab.get_word_id w == some j)) ∧
      est'.unseen_count = cV.countP (fun c => c == 0) := by
  unfold MLEstimator.fit at h
  cases hinc : incrCounts est.vocab (List.replicate est.vocab.size 0) L with
  | error e => rw [hinc] at h; exact absurd h (by simp)
  | ok cV =>
    rw [hinc] at h
    simp only [Except.ok.injEq] at h
    subst h
    have hlen0 : (List.replicate est.vocab.size (0 : Nat)).length = est.vocab.size := by
      simp
    refine ⟨rfl, rfl, rfl, cV, rfl, ?_, ?_, ?_, rfl⟩
    · rw [incrCounts_length hinc, hlen0]
    · have hs := incrCounts_sum hinc hlen0
      rw [List.sum_replicate] at hs
      simpa using hs
    · intro j
      have := incrCounts_getD hinc hlen0 j
      simpa [getD_replicate_zero] using this

/-- In a nodup word list, matching on the looked-up id of a fixed in-range
index is the same as counting occurrences of the word at that index. -/
theorem countP_lookup_eq_count {ws : List String} (hnd : ws.Nodup) {i : Nat}
    (hlt : i < ws.length) (L : List String) :
    L.countP (fun w => lookupId ws w == some i) = L.count (ws.get ⟨i, hlt⟩) := by
  rw [List.count_eq_countP]
  apply List.countP_congr
  intro w _
  simp only [beq_iff_eq]
  constructor
  · intro hw
    obtain ⟨h2, hg⟩ := lookupId_get hw
    exact hg.symm
  · intro hw
    rw [hw]
    exact lookupId_of_get hnd hlt

/-! ### predict_proba branch lemmas -/

theorem predict_proba_observed {est : MLEstimator} {w : String} {i : Nat}
    {cV : List Nat} (hw : est.vocab.get_word_id w = some i)
    (hcv : est.count_V = some cV) (hc : 0 < cV.getD i 0)
    (hn : 0 < est.total_count) :
    est.predict_proba w =
      .ok ((1 - est.epsilon_unseen_proba) *
        ((cV.getD i 0 : ℚ) / (est.total_count : ℚ))) := by
  have hml : 0 < (cV.getD i 0 : ℚ) / (est.total_count : ℚ) :=
    div_pos (by exact_mod_cast hc) (by exact_mod_cast hn)
  unfold MLEstimator.predict_proba
  rw [hw, hcv]
  dsimp only
  rw [if_pos hml]

theorem predict_proba_unseen {est : MLEstimator} {w : String} {i : Nat}
    {cV : List Nat} (hw : est.vocab.get_word_id w = some i)
    (hcv : est.count_V = some cV) (hc : cV.getD i 0 = 0)
    (hu : 0 < est.unseen_count) :
    est.predict_proba w =
      .ok (est.epsilon_unseen_proba * (1 / (est.unseen_count : ℚ))) := by
  have hml : ¬ 0 < (cV.getD i 0 : ℚ) / (est.total_count : ℚ) := by
    rw [hc]
    simp
  unfold MLEstimator.predict_proba
  rw [hw, hcv]
  dsimp only
  rw [if_neg hml, if_pos hu]

/-- On a fitted estimator with a positive token total and epsilon in
`(0, 1)`, every vocabulary word gets a probability in `(0, 1]`. -/
theorem predict_proba_fitted_pos_le_one {est est' : MLEstimator}
    {L : List String} (hfit : est.fit L = .ok est') (hn : 0 < L.length)
    (heps0 : 0 < est.epsilon_unseen_proba) (heps1 : est.epsilon_unseen_proba < 1)
    {w : String} (hw : w ∈ est.vocab.words) :
    ∃ p, est'.predict_proba w = .ok p ∧ 0 < p ∧ p ≤ 1 := by
  obtain ⟨hvoc, heq, htot, cV, hcv, hlen, hsum, hget, huns⟩ := fit_state hfit
  obtain ⟨i, hi⟩ := Option.ne_none_iff_exists'.mp
    (fun hnone => (lookupId_eq_none_iff.mp hnone) hw)
  have hw' : est'.vocab.get_word_id w = some i := by
    rw [hvoc]; exact hi
  have hilt : i < cV.length := hlen ▸ lookupId_lt hi
  have hntot : 0 < est'.total_count := htot ▸ hn
  rcases Nat.eq_zero_or_pos (cV.getD i 0) with hzero | hpos
  · have hu : 0 < est'.unseen_count := huns ▸ countP_zero_pos hilt hzero
    refine ⟨est'.epsilon_unseen_proba * (1 / (est'.unseen_count : ℚ)),
      predict_proba_unseen hw' hcv hzero hu, ?_, ?_⟩
    · apply mul_pos
      · rw [heq]; exact heps0
      · exact one_div_pos.mpr (by exact_mod_cast hu)
    · have h1 : (1:ℚ) ≤ (est'.unseen_count : ℚ) := by exact_mod_cast hu
      have : est'.epsilon_unseen_proba * (1 / (est'.unseen_count : ℚ)) ≤
          est'.epsilon_unseen_proba * 1 := by
        apply mul_le_mul_of_nonneg_left _ (le_of_lt (heq ▸ heps0))
        rw [div_le_one (by exact_mod_cast hu)]
        exact h1
      calc est'.epsilon_unseen_proba * (1 / (est'.unseen_count : ℚ))
          ≤ est'.epsilon_unseen_proba * 1 := this
        _ ≤ 1 := by rw [mul_one, heq]; exact le_of_lt heps1
  · have hle : cV.getD i 0 ≤ est'.total_count := by
      rw [htot, ← hsum]; exact getD_le_sum cV i
    refine ⟨(1 - est'.epsilon_unseen_proba) *
      ((cV.getD i 0 : ℚ) / (est'.total_count : ℚ)),
      predict_proba_observed hw' hcv hpos hntot, ?_, ?_⟩
    · apply mul_pos
      · rw [heq]; linarith
      · exact div_pos (by exact_mod_cast hpos) (by exact_mod_cast hntot)
    · have hml1 : (cV.getD i 0 : ℚ) / (est'.total_count : ℚ) ≤ 1 := by
        rw [div_le_one (by exact_mod_cast hntot)]
        exact_mod_cast hle
      have hml0 : 0 ≤ (cV.getD i 0 : ℚ) / (est'.total_count : ℚ) :=
        le_of_lt (div_pos (by exact_mod_cast hpos) (by exact_mod_cast hntot))
      have h1e : 0 ≤ 1 - est'.epsilon_unseen_proba := by rw [heq]; linarith
      calc (1 - est'.epsilon_unseen_proba) *
            ((cV.getD i 0 : ℚ) / (est'.total_count : ℚ))
          ≤ (1 - est'.epsilon_unseen_proba) * 1 :=
            mul_le_mul_of_nonneg_left hml1 h1e
        _ ≤ 1 := by rw [mul_one, heq]; linarith

/-! ### Mass decomposition over the count vector -/

/-- Per-branch probability value as a function of the count alone. -/
theorem sum_map_proba_val (eps n u : ℚ) (l : List Nat) :
    (l.map (fun c : Nat => if 0 < c then (1 - eps) * ((c : ℚ) / n)
      else eps * (1 / u))).sum =
    (1 - eps) * ((l.sum : ℚ) / n) +
      (eps * (1 / u)) * (l.countP (fun c => c == 0) : ℚ) := by
  induction l with
  | nil => simp
  | cons c t ih =>
    rcases Nat.eq_zero_or_pos c with hc | hc
    · subst hc
      simp only [List.map_cons, List.sum_cons, List.countP_cons, ih]
      norm_num
      ring
    · have hc0 : (c == 0) = false := by
        simp only [beq_eq_false_iff_ne, ne_eq]
        omega
      simp only [List.map_cons, List.sum_cons, List.countP_cons, ih, hc0, hc,
        if_true, Bool.false_eq_true, if_false, Nat.add_zero]
      push_cast
      ring

/-! ### score helpers -/

theorem logSum_ok {est : MLEstimator} {ws : List String} {ps : List ℚ}
    (h : List.Forall₂ (fun w p => est.predict_proba w = .ok p) ws ps) :
    ∀ acc : ℝ, logSum est acc ws =
      .ok (acc + (ps.map fun p => Real.log ((p : ℚ) : ℝ)).sum) := by
  induction h with
  | nil => intro acc; simp [logSum]
  | cons hwp _ ih =>
    intro acc
    simp only [logSum, hwp, ih, List.map_cons, List.sum_cons]
    rw [add_assoc]

theorem sum_nonpos_of_forall {l : List ℝ} (h : ∀ x ∈ l, x ≤ 0) : l.sum ≤ 0 := by
  induction l with
  | nil => simp
  | cons a t ih =>
    have ha := h a (by simp)
    have ht := ih (fun x hx => h x (by simp [hx]))
    simp only [List.sum_cons]
    linarith

theorem forall₂_predict_exists {est : MLEstimator} {Q : ℚ → Prop}
    {ws : List String}
    (h : ∀ w ∈ ws, ∃ p, est.predict_proba w = .ok p ∧ Q p) :
    ∃ ps, List.Forall₂ (fun w p => est.predict_proba w = .ok p) ws ps ∧
      ∀ p ∈ ps, Q p := by
  induction ws with
  | nil => exact ⟨[], List.Forall₂.nil, by simp⟩
  | cons w rest ih =>
    obtain ⟨p, hp, hq⟩ := h w (by simp)
    obtain ⟨ps, hf, hqs⟩ := ih (fun x hx => h x (by simp [hx]))
    refine ⟨p :: ps, List.Forall₂.cons hp hf, ?_⟩
    intro q hq'
    rcases List.mem_cons.mp hq' with rfl | hmem
    · exact hq
    · exact hqs q hmem

/-- fit reads only the vocabulary (and carries the epsilon along), so two
estimators agreeing on those produce identical fit results. -/
theorem fit_congr {est1 est2 : MLEstimator}
    (hvoc : est1.vocab = est2.vocab)
    (heps : est1.epsilon_unseen_proba = est2.epsilon_unseen_proba)
    (L : List String) : est1.fit L = est2.fit L := by
  obtain ⟨v1, e1, t1, u1, c1⟩ := est1
  obtain ⟨v2, e2, t2, u2, c2⟩ := est2
  simp only at hvoc heps
  subst hvoc
  subst heps
  unfold MLEstimator.fit
  rfl

/-! ### Concrete instances (used by witnesses and counterexamples) -/

instance instDecEqExcept {ε α : Type} [DecidableEq ε] [DecidableEq α] :
    DecidableEq (Except ε α)
  | .error a, .error b =>
    if h : a = b then .isTrue (by rw [h]) else .isFalse (by simp [h])
  | .error _, .ok _ => .isFalse (by simp)
  | .ok _, .error _ => .isFalse (by simp)
  | .ok a, .ok b =>
    if h : a = b then .isTrue (by rw [h]) else .isFalse (by simp [h])

/-- The spec's concrete scenario: four-word vocabulary. -/
def vocab0 : Vocabulary :=
  ⟨["dinosaur", "trex", "stegosaurus", "known_unseen"], by decide⟩

def train0 : List String := ["dinosaur", "trex", "dinosaur", "stegosaurus"]

def est0 : MLEstimator := MLEstimator.init vocab0 (1/10)

/-- The fitted state reached by `est0.fit train0`. -/
def est1 : MLEstimator :=
  { vocab := vocab0
    epsilon_unseen_proba := 1/10
    total_count := 4
    unseen_count := 1
    count_V := some [2, 1, 1, 0] }

/-- One-word vocabulary where every word is observed after fitting. -/
def vocab1 : Vocabulary := ⟨["a"], by decide⟩

def estA : MLEstimator := MLEstimator.init vocab1 (1/10)

/-- The fitted state reached by `estA.fit ["a"]`: no unseen word remains. -/
def estB : MLEstimator :=
  { vocab := vocab1
    epsilon_unseen_proba := 1/10
    total_count := 1
    unseen_count := 0
    count_V := some [1] }

/-- The state reached by `est0.fit []`: empty training list. -/
def estE : MLEstimator :=
  { vocab := vocab0
    epsilon_unseen_proba := 1/10
    total_count := 0
    unseen_count := 4
    count_V := some [0, 0, 0, 0] }

/-! ### Claims -/

/-- C10: construction succeeds for every `epsilon_unseen_proba` value
(the quantification includes values outside `(0, 1)`); no validation is
performed, `vocab` and `epsilon_unseen_proba` are stored unchanged, and
`total_count = 0`, `unseen_count = 0`, `count_V = None`. -/
theorem claim_C10_init_no_validation (vocab : Vocabulary) (eps : ℚ) :
    (MLEstimator.init vocab eps).vocab = vocab ∧
    (MLEstimator.init vocab eps).epsilon_unseen_proba = eps ∧
    (MLEstimator.init vocab eps).total_count = 0 ∧
    (MLEstimator.init vocab eps).unseen_count = 0 ∧
    (MLEstimator.init vocab eps).count_V = none :=
  ⟨rfl, rfl, rfl, rfl, rfl⟩

/-- C7: `predict_proba` on a word absent from the vocabulary fails with the
lookup error naming the word, regardless of fit state (the estimator is
arbitrary: unfitted, fitted, anything). -/
theorem claim_C7_unknown_word_error (est : MLEstimator) (w : String)
    (hw : w ∉ est.vocab.words) :
    est.predict_proba w = .error ("Word " ++ w ++ " not in the vocabulary") := by
  have hnone : est.vocab.get_word_id w = none := lookupId_eq_none_iff.mpr hw
  unfold MLEstimator.predict_proba
  rw [hnone]

/-- C4: for every training list whose words are all in the vocabulary,
`fit` succeeds, and afterwards `total_count = len(L)`, `sum(count_V) =
total_count`, `count_V[i]` is the number of occurrences of vocabulary word
`i` in `L`, and `unseen_count` is the number of vocabulary ids with zero
count. -/
theorem claim_C4_fit_invariants (est : MLEstimator) (L : List String)
    (hmem : ∀ w ∈ L, w ∈ est.vocab.words) :
    ∃ est', est.fit L = .ok est' ∧
      est'.total_count = L.length ∧
      ∃ cV, est'.count_V = some cV ∧
        cV.length = est.vocab.size ∧
        cV.sum = L.length ∧
        (∀ i (hlt : i < est.vocab.words.length),
          cV.getD i 0 = L.count (est.vocab.words.get ⟨i, hlt⟩)) ∧
        est'.unseen_count =
          ((List.range est.vocab.size).filter
            (fun i => cV.getD i 0 == 0)).length := by
  obtain ⟨cV0, hok⟩ := incrCounts_ok_of_mem hmem (List.replicate est.vocab.size 0)
  obtain ⟨est', hfit⟩ : ∃ est', est.fit L = .ok est' := by
    unfold MLEstimator.fit
    rw [hok]
    exact ⟨_, rfl⟩
  obtain ⟨hvoc, heps, htot, cV, hcv, hlen, hsum, hget, huns⟩ := fit_state hfit
  refine ⟨_, hfit, htot, cV, hcv, hlen, hsum, ?_, ?_⟩
  · intro i hlt
    rw [hget i]
    exact countP_lookup_eq_count est.vocab.nodup hlt L
  · rw [huns, ← countP_range_getD cV (fun c => c == 0), hlen,
      List.countP_eq_length_filter]

/-- C2: a vocabulary word observed `k > 0` times during a fit over a
training list of length `n` gets probability `(1 - epsilon) * k / n`. -/
theorem claim_C2_observed_word_proba (est est' : MLEstimator) (L : List String)
    (w : String) (i : Nat) (hfit : est.fit L = .ok est')
    (hw : est.vocab.get_word_id w = some i) (hk : 0 < L.count w) :
    est'.predict_proba w =
      .ok ((1 - est.epsilon_unseen_proba) *
        ((L.count w : ℚ) / (L.length : ℚ))) := by
  obtain ⟨hvoc, heps, htot, cV, hcv, hlen, hsum, hget, huns⟩ := fit_state hfit
  have hlt : i < est.vocab.words.length := lookupId_lt hw
  have hcount : cV.getD i 0 = L.count w := by
    rw [hget i]
    obtain ⟨h2, hg⟩ := lookupId_get hw
    have hg' : est.vocab.words.get ⟨i, hlt⟩ = w := hg
    have hc := countP_lookup_eq_count est.vocab.nodup hlt L
    rw [hg'] at hc
    exact hc
  have hn : 0 < est'.total_count := by
    rw [htot]
    exact lt_of_lt_of_le hk (List.count_le_length w L)
  have hw' : est'.vocab.get_word_id w = some i := by rw [hvoc]; exact hw
  rw [predict_proba_observed hw' hcv (by rw [hcount]; exact hk) hn,
    hcount, htot, heps]

/-- C3: a vocabulary word observed zero times during a fit with a positive
total gets the reserved epsilon mass split uniformly over the unseen
words: `epsilon * (1 / unseen_count)`, and `unseen_count > 0`. -/
theorem claim_C3_unseen_word_proba (est est' : MLEstimator) (L : List String)
    (w : String) (i : Nat) (hfit : est.fit L = .ok est')
    (hw : est.vocab.get_word_id w = some i) (h0 : L.count w = 0)
    (_hn : 0 < L.length) :
    0 < est'.unseen_count ∧
    est'.predict_proba w =
      .ok (est.epsilon_unseen_proba * (1 / (est'.unseen_count : ℚ))) := by
  obtain ⟨hvoc, heps, htot, cV, hcv, hlen, hsum, hget, huns⟩ := fit_state hfit
  have hlt : i < est.vocab.words.length := lookupId_lt hw
  have hcount : cV.getD i 0 = 0 := by
    rw [hget i]
    obtain ⟨h2, hg⟩ := lookupId_get hw
    have hg' : est.vocab.words.get ⟨i, hlt⟩ = w := hg
    have hc := countP_lookup_eq_count est.vocab.nodup hlt L
    rw [hg', h0] at hc
    exact hc
  have hiltc : i < cV.length := by rw [hlen]; exact hlt
  have hu : 0 < est'.unseen_count := by
    rw [huns]
    exact countP_zero_pos hiltc hcount
  have hw' : est'.vocab.get_word_id w = some i := by rw [hvoc]; exact hw
  exact ⟨hu, by rw [predict_proba_unseen hw' hcv hcount hu, heps]⟩

/-- C9: after a successful fit with a positive total, the final else
branch of `predict_proba` is unreachable for a vocabulary word: either the
maximum-likelihood ratio is positive, or `unseen_count` is positive (a
zero count puts the word itself among the unseen ones). -/
theorem claim_C9_else_branch_unreachable (est est' : MLEstimator)
    (L : List String) (w : String) (i : Nat) (cV : List Nat)
    (hfit : est.fit L = .ok est') (hn : 0 < est'.total_count)
    (hw : est.vocab.get_word_id w = some i) (hcv : est'.count_V = some cV) :
    0 < (cV.getD i 0 : ℚ) / (est'.total_count : ℚ) ∨ 0 < est'.unseen_count := by
  obtain ⟨hvoc, heps, htot, cV2, hcv2, hlen, hsum, hget, huns⟩ := fit_state hfit
  rw [hcv] at hcv2
  obtain rfl : cV = cV2 := (Option.some.injEq _ _).mp hcv2
  rcases Nat.eq_zero_or_pos (cV.getD i 0) with hz | hp
  · right
    rw [huns]
    exact countP_zero_pos (by rw [hlen]; exact lookupId_lt hw) hz
  · left
    exact div_pos (by exact_mod_cast hp) (by exact_mod_cast hn)

/-- C5: calling `fit` again fully replaces the fitted state: after
`fit L1`, a `fit L2` produces exactly the result a fresh estimator's
`fit L2` produces (in particular the same `count_V`, `total_count`,
`unseen_count`; nothing accumulates). -/
theorem claim_C5_refit_replaces_state (v : Vocabulary) (eps : ℚ)
    (L1 L2 : List String) (e1 : MLEstimator)
    (hfit1 : (MLEstimator.init v eps).fit L1 = .ok e1) :
    e1.fit L2 = (MLEstimator.init v eps).fit L2 := by
  obtain ⟨hvoc, heps, _⟩ := fit_state hfit1
  exact fit_congr hvoc heps L2

/-- C8 (amended): after fitting an empty list (`total_count == 0`),
`predict_proba` on a vocabulary word does not fail: numpy evaluates `0/0`
to NaN with only a warning, `NaN > 0` is false, and since every count is
zero `unseen_count = V > 0`, so the unseen branch silently returns
`epsilon_unseen_proba * (1 / V)`. -/
theorem claim_C8_amended_empty_fit_proba (est est' : MLEstimator)
    (w : String) (i : Nat) (hfit : est.fit [] = .ok est')
    (hw : est.vocab.get_word_id w = some i) :
    est'.unseen_count = est.vocab.size ∧
    est'.predict_proba w =
      .ok (est.epsilon_unseen_proba * (1 / (est.vocab.size : ℚ))) := by
  obtain ⟨hvoc, heps, htot, cV, hcv, hlen, hsum, hget, huns⟩ := fit_state hfit
  have hallz : ∀ j, cV.getD j 0 = 0 := fun j => by rw [hget j]; simp
  have hcnt : cV.countP (fun c => c == 0) = cV.length := by
    rw [List.countP_eq_length]
    intro a ha
    obtain ⟨j, hjlt, hje⟩ := List.getElem_of_mem ha
    have hj := hallz j
    rw [List.getD_eq_getElem cV 0 hjlt] at hj
    simp [← hje, hj]
  have huv : est'.unseen_count = est.vocab.size := by rw [huns, hcnt, hlen]
  have hu : 0 < est'.unseen_count := by
    rw [huv]
    exact Nat.lt_of_le_of_lt (Nat.zero_le i) (lookupId_lt hw)
  refine ⟨huv, ?_⟩
  rw [predict_proba_unseen (by rw [hvoc]; exact hw) hcv (hallz i) hu, heps, huv]

/-- C1 (amended): on an estimator fitted with a positive training length
and epsilon in `(0, 1)`, every vocabulary word's probability lies in
`[0, 1]`; the probabilities over the whole vocabulary sum exactly to
`(1 - epsilon)` (held collectively by the observed words) plus, when at
least one vocabulary word is unseen, the full epsilon mass (held by the
unseen words) — i.e. exactly `1` when `unseen_count > 0`, but only
`1 - epsilon` when every vocabulary word was observed. -/
theorem claim_C1_amended_total_mass (est est' : MLEstimator) (L : List String)
    (hfit : est.fit L = .ok est') (hn : 0 < L.length)
    (heps0 : 0 < est.epsilon_unseen_proba)
    (heps1 : est.epsilon_unseen_proba < 1) :
    ∃ ps : List ℚ,
      List.Forall₂ (fun w p => est'.predict_proba w = .ok p)
        est.vocab.words ps ∧
      (∀ p ∈ ps, 0 ≤ p ∧ p ≤ 1) ∧
      ps.sum = (1 - est.epsilon_unseen_proba) +
        (if 0 < est'.unseen_count then est.epsilon_unseen_proba else 0) := by
  obtain ⟨hvoc, heps, htot, cV, hcv, hlen, hsum, hget, huns⟩ := fit_state hfit
  rw [← heps] at heps0 heps1 ⊢
  have hpoint : ∀ {w : String} {j : Nat}, est.vocab.get_word_id w = some j →
      est'.predict_proba w =
        .ok (if 0 < cV.getD j 0 then
          (1 - est'.epsilon_unseen_proba) *
            ((cV.getD j 0 : ℚ) / (est'.total_count : ℚ))
        else est'.epsilon_unseen_proba * (1 / (est'.unseen_count : ℚ))) := by
    intro w j hwj
    have hw' : est'.vocab.get_word_id w = some j := by rw [hvoc]; exact hwj
    rcases Nat.eq_zero_or_pos (cV.getD j 0) with hz | hp
    · have hu : 0 < est'.unseen_count := by
        rw [huns]
        exact countP_zero_pos (by rw [hlen]; exact lookupId_lt hwj) hz
      rw [predict_proba_unseen hw' hcv hz hu, if_neg (by omega)]
    · rw [predict_proba_observed hw' hcv hp (by rw [htot]; exact hn),
        if_pos hp]
  refine ⟨est.vocab.words.map (fun w =>
      match est.vocab.get_word_id w with
      | some j =>
        if 0 < cV.getD j 0 then
          (1 - est'.epsilon_unseen_proba) *
            ((cV.getD j 0 : ℚ) / (est'.total_count : ℚ))
        else est'.epsilon_unseen_proba * (1 / (est'.unseen_count : ℚ))
      | none => 0), ?_, ?_, ?_⟩
  · rw [List.forall₂_map_right_iff, List.forall₂_same]
    intro w hw
    cases hwj : est.vocab.get_word_id w with
    | none => exact absurd (lookupId_eq_none_iff.mp hwj) (by simpa using hw)
    | some j =>
      exact hpoint hwj
  · intro p hp
    obtain ⟨w, hwmem, rfl⟩ := List.mem_map.mp hp
    obtain ⟨q, hq, hq0, hq1⟩ :=
      predict_proba_fitted_pos_le_one hfit hn (heps ▸ heps0) (heps ▸ heps1) hwmem
    cases hwj : est.vocab.get_word_id w with
    | none => exact absurd (lookupId_eq_none_iff.mp hwj) (by simpa using hwmem)
    | some j =>
      have heqq := hpoint hwj
      rw [heqq] at hq
      have hval := Except.ok.inj hq
      dsimp only
      rw [hval]
      exact ⟨le_of_lt hq0, hq1⟩
  · have hmaps : est.vocab.words.map (fun w =>
        match est.vocab.get_word_id w with
        | some j =>
          if 0 < cV.getD j 0 then
            (1 - est'.epsilon_unseen_proba) *
              ((cV.getD j 0 : ℚ) / (est'.total_count : ℚ))
          else est'.epsilon_unseen_proba * (1 / (est'.unseen_count : ℚ))
        | none => 0) =
        (List.range cV.length).map (fun i =>
          (fun c : Nat => if 0 < c then
            (1 - est'.epsilon_unseen_proba) *
              ((c : ℚ) / (est'.total_count : ℚ))
          else est'.epsilon_unseen_proba * (1 / (est'.unseen_count : ℚ)))
          (cV.getD i 0)) := by
      apply List.ext_getElem
      · simp only [List.length_map, List.length_range, hlen]
        rfl
      · intro k h1 h2
        simp only [List.getElem_map, List.getElem_range]
        have hk : k < est.vocab.words.length := by simpa using h1
        have hwk := lookupId_of_get est.vocab.nodup hk
        simp only [List.get_eq_getElem] at hwk
        have hwk2 : est.vocab.get_word_id (est.vocab.words[k]) = some k := hwk
        rw [hwk2]
    rw [hmaps, sum_map_range_getD cV (fun c : Nat => if 0 < c then
        (1 - est'.epsilon_unseen_proba) * ((c : ℚ) / (est'.total_count : ℚ))
      else est'.epsilon_unseen_proba * (1 / (est'.unseen_count : ℚ))),
      sum_map_proba_val (est'.epsilon_unseen_proba) ((est'.total_count : ℚ))
        ((est'.unseen_count : ℚ)) cV,
      hsum, ← huns, htot]
    have hLne : ((L.length : ℚ)) ≠ 0 := by
      exact_mod_cast Nat.pos_iff_ne_zero.mp hn
    rw [div_self hLne, mul_one]
    by_cases hu : 0 < est'.unseen_count
    · have huq : ((est'.unseen_count : ℚ)) ≠ 0 := by
        exact_mod_cast Nat.pos_iff_ne_zero.mp hu
      rw [if_pos hu, mul_assoc, one_div_mul_cancel huq, mul_one]
    · have hz : est'.unseen_count = 0 := Nat.eq_zero_of_not_pos hu
      rw [if_neg hu, hz]
      norm_num

/-- C6: on an estimator fitted with a positive total and epsilon in
`(0, 1)`, `score` of a non-empty list of vocabulary words is the average
of the natural logs of the per-word probabilities, and that average is at
most `0`. -/
theorem claim_C6_score_avg_log_nonpos (est est' : MLEstimator)
    (L ws : List String) (hfit : est.fit L = .ok est') (hn : 0 < L.length)
    (heps0 : 0 < est.epsilon_unseen_proba)
    (heps1 : est.epsilon_unseen_proba < 1)
    (hws : ∀ w ∈ ws, w ∈ est.vocab.words) (hne : ws ≠ []) :
    ∃ ps : List ℚ,
      List.Forall₂ (fun w p => est'.predict_proba w = .ok p) ws ps ∧
      est'.score ws =
        .ok ((ps.map fun p => Real.log ((p : ℚ) : ℝ)).sum / (ws.length : ℝ)) ∧
      (ps.map fun p => Real.log ((p : ℚ) : ℝ)).sum / (ws.length : ℝ) ≤ 0 := by
  have hpt : ∀ w ∈ ws, ∃ p, est'.predict_proba w = .ok p ∧ 0 < p ∧ p ≤ 1 :=
    fun w hw => predict_proba_fitted_pos_le_one hfit hn heps0 heps1 (hws w hw)
  obtain ⟨ps, hf, hb⟩ := forall₂_predict_exists hpt
  refine ⟨ps, hf, ?_, ?_⟩
  · unfold MLEstimator.score
    rw [logSum_ok hf 0, zero_add]
  · have hlogs : ∀ x ∈ ps.map (fun p => Real.log ((p : ℚ) : ℝ)), x ≤ 0 := by
      intro x hx
      obtain ⟨p, hp, rfl⟩ := List.mem_map.mp hx
      obtain ⟨hp0, hp1⟩ := hb p hp
      exact Real.log_nonpos (by exact_mod_cast le_of_lt hp0)
        (by exact_mod_cast hp1)
    have hsumle := sum_nonpos_of_forall hlogs
    have hlenpos : (0 : ℝ) < (ws.length : ℝ) := by
      exact_mod_cast List.length_pos.mpr hne
    exact div_nonpos_of_nonpos_of_nonneg hsumle (le_of_lt hlenpos)

/-! ### Witnesses and counterexamples on the concrete instances -/

/-- Witness for C4 at the spec's concrete scenario. -/
theorem claim_C4_witness :
    ∃ est', est0.fit train0 = .ok est' ∧
      est'.total_count = train0.length ∧
      ∃ cV, est'.count_V = some cV ∧
        cV.length = est0.vocab.size ∧
        cV.sum = train0.length ∧
        (∀ i (hlt : i < est0.vocab.words.length),
          cV.getD i 0 = train0.count (est0.vocab.words.get ⟨i, hlt⟩)) ∧
        est'.unseen_count =
          ((List.range est0.vocab.size).filter
            (fun i => cV.getD i 0 == 0)).length :=
  claim_C4_fit_invariants est0 train0 (by decide)

/-- Witness for C2: `dinosaur` is observed twice out of four tokens. -/
theorem claim_C2_witness :
    est1.predict_proba "dinosaur" =
      .ok ((1 - est0.epsilon_unseen_proba) *
        ((train0.count "dinosaur" : ℚ) / (train0.length : ℚ))) :=
  claim_C2_observed_word_proba est0 est1 train0 "dinosaur" 0 rfl rfl (by decide)

/-- Witness for C3: `known_unseen` is observed zero times. -/
theorem claim_C3_witness :
    0 < est1.unseen_count ∧
    est1.predict_proba "known_unseen" =
      .ok (est0.epsilon_unseen_proba * (1 / (est1.unseen_count : ℚ))) :=
  claim_C3_unseen_word_proba est0 est1 train0 "known_unseen" 3 rfl rfl
    (by decide) (by decide)

/-- Witness for C5: refitting `est1` behaves like fitting fresh. -/
theorem claim_C5_witness :
    est1.fit ["trex"] = (MLEstimator.init vocab0 (1/10)).fit ["trex"] :=
  claim_C5_refit_replaces_state vocab0 (1/10) train0 ["trex"] est1 rfl

/-- Witness for C7 on an unfitted estimator and an unknown word. -/
theorem claim_C7_witness :
    est0.predict_proba "UNKNOWN_unseen" =
      .error ("Word " ++ "UNKNOWN_unseen" ++ " not in the vocabulary") :=
  claim_C7_unknown_word_error est0 "UNKNOWN_unseen" (by decide)

/-- Witness for the amended C8 after fitting the empty list. -/
theorem claim_C8_witness :
    estE.unseen_count = est0.vocab.size ∧
    estE.predict_proba "dinosaur" =
      .ok (est0.epsilon_unseen_proba * (1 / (est0.vocab.size : ℚ))) :=
  claim_C8_amended_empty_fit_proba est0 estE "dinosaur" 0 rfl rfl

/-- Witness for C9 at the fitted concrete estimator. -/
theorem claim_C9_witness :
    0 < (([2, 1, 1, 0] : List Nat).getD 0 0 : ℚ) / (est1.total_count : ℚ) ∨
      0 < est1.unseen_count :=
  claim_C9_else_branch_unreachable est0 est1 train0 "dinosaur" 0 [2, 1, 1, 0]
    rfl (by decide) rfl rfl

/-- Witness for the amended C1 at the spec's concrete scenario. -/
theorem claim_C1_witness :
    ∃ ps : List ℚ,
      List.Forall₂ (fun w p => est1.predict_proba w = .ok p)
        est0.vocab.words ps ∧
      (∀ p ∈ ps, 0 ≤ p ∧ p ≤ 1) ∧
      ps.sum = (1 - est0.epsilon_unseen_proba) +
        (if 0 < est1.unseen_count then est0.epsilon_unseen_proba else 0) :=
  claim_C1_amended_total_mass est0 est1 train0 rfl (by decide)
    (by show (0:ℚ) < 1/10; norm_num) (by show (1:ℚ)/10 < 1; norm_num)

/-- Witness for C6: scoring two observed words on the fitted estimator. -/
theorem claim_C6_witness :
    ∃ ps : List ℚ,
      List.Forall₂ (fun w p => est1.predict_proba w = .ok p)
        ["dinosaur", "trex"] ps ∧
      est1.score ["dinosaur", "trex"] =
        .ok ((ps.map fun p => Real.log ((p : ℚ) : ℝ)).sum /
          ((["dinosaur", "trex"] : List String).length : ℝ)) ∧
      (ps.map fun p => Real.log ((p : ℚ) : ℝ)).sum /
          ((["dinosaur", "trex"] : List String).length : ℝ) ≤ 0 :=
  claim_C6_score_avg_log_nonpos est0 est1 train0 ["dinosaur", "trex"] rfl
    (by decide) (by show (0:ℚ) < 1/10; norm_num)
    (by show (1:ℚ)/10 < 1; norm_num) (by decide) (by decide)

/-- Counterexample to C1 as stated: with vocabulary `["a"]`, training
`["a"]` and epsilon `1/10`, every vocabulary word is observed; the
vocabulary-wide probabilities are `[9/10]`, summing to `9/10 ≠ 1` — the
reserved epsilon mass is silently dropped when no word is unseen. -/
theorem claim_C1_counterexample :
    estA.fit ["a"] = .ok estB ∧
    List.Forall₂ (fun w p => estB.predict_proba w = .ok p) vocab1.words
      [(9 : ℚ)/10] ∧
    ([(9 : ℚ)/10] : List ℚ).sum ≠ 1 := by
  refine ⟨rfl, ?_, by norm_num⟩
  refine List.Forall₂.cons ?_ List.Forall₂.nil
  have h := predict_proba_observed
    (rfl : estB.vocab.get_word_id "a" = some 0)
    (rfl : estB.count_V = some [1]) (by decide) (by decide)
  rw [h]
  norm_num [estB]

/-- Counterexample to C8 as stated: after fitting the empty list,
`predict_proba` on the vocabulary word `dinosaur` does not fail — it
returns the ordinary probability `1/40 = epsilon/V`. -/
theorem claim_C8_counterexample :
    est0.fit [] = .ok estE ∧
    estE.predict_proba "dinosaur" = .ok ((1 : ℚ)/40) := by
  refine ⟨rfl, ?_⟩
  have h := predict_proba_unseen
    (rfl : estE.vocab.get_word_id "dinosaur" = some 0)
    (rfl : estE.count_V = some [0, 0, 0, 0]) (by decide) (by decide)
  rw [h]
  norm_num [estE]

end UnigramML
